import Mathlib

/-!
Verification of the `feuermurmel.events` library (src/feuermurmel/events.py).

The library is single-threaded and fully synchronous, so it is embedded as a
deterministic interpreter over an explicit world state.  Tasks live in a list
indexed by `TaskId`; each task carries the fields of `BasicTask`, `Task` and
`Future` (`_running`, `_event_signal_queue`, `_exception`, `_adopted_tasks`,
`_result`, `_succeeded`) together with the per-instance subscriber lists of its
bound events.  Subscriber callables are defunctionalised into the `Handler`
type and interpreted by `invokeHandler`; the bound method `task.on_failure`
used as the default adoption failure handler is `Handler.onFailureOf`.

Python exceptions are modelled by `Exc`; a computation returns `Outcome`,
where errors carry the world as mutated up to the raise (Python exceptions do
not roll back state).  Recursion through handler invocation and through
`stop()`'s cascade over adopted tasks is bounded by a fuel parameter; running
out of fuel yields the distinguished outcome `Outcome.fuelOut`, which is never
confused with a Python-level result.

Observability: executing the declared body of a host-declared (user) event
appends a `TraceEnt.body` entry to the world's trace, and each subscriber
invocation of a notification pass appends a `TraceEnt.invoked` entry; this is
the instrumentation used to state when bodies run and which handlers a fire
notifies.  The bodies of the library's own events `on_failure`/`on_success`
act purely through task state and are not traced.
-/

set_option maxHeartbeats 1000000

namespace Events

/-- Task identifiers: indices into the world's task list. -/
abbrev TaskId := Nat

/-- Python exceptions.  `EventHandlerException` and `NoFailureHandlerException`
subclass `BaseException` directly in the source, so an `except Exception`
clause does not catch them.  `invalidState` is the plain
`Exception('stop() called on non-running task.')` raised by `Task.stop`;
`valueError` is the `ValueError` raised by `list.remove` in `__isub__` when
the handler is absent; `userExc n b` is an arbitrary exception raised by host
code, with `b` telling whether it derives from `Exception`. -/
inductive Exc where
  | eventHandler (cause : Exc)
  | noFailureHandler
  | invalidState
  | valueError
  | missingTask
  | userExc (n : Nat) (isExc : Bool)
deriving DecidableEq, Repr

/-- Whether the exception is an instance of Python's `Exception` class, i.e.
whether `except Exception` catches it. -/
def Exc.isException : Exc → Bool
  | .eventHandler _ => false
  | .noFailureHandler => false
  | .invalidState => true
  | .valueError => true
  | .missingTask => true
  | .userExc _ b => b

/-- Values passed as event arguments and stored in `_exception` / `_result`. -/
inductive V where
  | exc (e : Exc)
  | nat (n : Nat)
  | noneV
deriving DecidableEq, Repr

/-- The events a task instance can carry: the library's `on_failure` and
`on_success` plus host-declared events `user n`. -/
inductive EvId where
  | onFailure
  | onSuccess
  | user (n : Nat)
deriving DecidableEq, Repr

/-- Defunctionalised subscriber callables.  `record tag` is a host handler
with no effect (the invocation itself is traced); `raiseErr e` raises `e`;
`subscribeH`/`unsubscribeH` mutate a subscriber list via the `+=`/`-=`
operators; `onFailureOf t` is the bound event `t.on_failure` used as a
callable, the default failure handler installed by `_adopt_task`. -/
inductive Handler where
  | record (tag : Nat)
  | raiseErr (e : Exc)
  | subscribeH (t : TaskId) (ev : EvId) (h : Handler)
  | unsubscribeH (t : TaskId) (ev : EvId) (h : Handler)
  | onFailureOf (t : TaskId)
deriving DecidableEq, Repr

/-- Handlers that only touch subscriber lists or do nothing: they never raise
an exception into the pass by themselves (apart from `unsubscribeH` on an
absent handler) and never fire events. -/
def Handler.isStructural : Handler → Bool
  | .record _ => true
  | .subscribeH _ _ _ => true
  | .unsubscribeH _ _ _ => true
  | _ => false

/-- Trace entries: `body` marks the synchronous execution of a user event's
declared body, `invoked` marks one subscriber invocation of a notification
pass. -/
inductive TraceEnt where
  | body (t : TaskId) (ev : EvId) (arg : V)
  | invoked (t : TaskId) (ev : EvId) (h : Handler) (arg : V)
deriving DecidableEq, Repr

/-- The per-instance state of a task: the fields set up by `BasicTask.__init__`
(`_running`, `_event_signal_queue`), `Task.__init__` (`_exception`,
`_adopted_tasks`), `Future.__init__` (`_result`, `_succeeded`) and the
`_subscribers` lists of the instance's bound events. -/
structure TaskState where
  running : Bool
  queue : Option (List (EvId × V))
  exception : Option V
  adopted : List TaskId
  result : Option V
  succeeded : Bool
  failSubs : List Handler
  succSubs : List Handler
  userSubs : List (Nat × List Handler)
deriving DecidableEq, Repr

/-- A freshly constructed task: `running = true`, no queue, no exception, no
adopted children, no result, and every subscriber list empty. -/
def TaskState.init : TaskState :=
  ⟨true, none, none, [], none, false, [], [], []⟩

/-- Lookup in the association list holding user-event subscriber lists. -/
def subsGet : List (Nat × List Handler) → Nat → List Handler
  | [], _ => []
  | (k, l) :: rest, n => if k = n then l else subsGet rest n

/-- Update in the association list holding user-event subscriber lists. -/
def subsSet : List (Nat × List Handler) → Nat → List Handler → List (Nat × List Handler)
  | [], n, l => [(n, l)]
  | (k, l0) :: rest, n, l =>
      if k = n then (n, l) :: rest else (k, l0) :: subsSet rest n l

/-- The `_subscribers` list of the bound event `ev` of a task. -/
def TaskState.getSubs (ts : TaskState) : EvId → List Handler
  | .onFailure => ts.failSubs
  | .onSuccess => ts.succSubs
  | .user n => subsGet ts.userSubs n

/-- Replace the `_subscribers` list of the bound event `ev` of a task. -/
def TaskState.setSubs (ts : TaskState) : EvId → List Handler → TaskState
  | .onFailure, l => { ts with failSubs := l }
  | .onSuccess, l => { ts with succSubs := l }
  | .user n, l => { ts with userSubs := subsSet ts.userSubs n l }

/-- The world: all task instances (indexed by `TaskId`) and the observation
trace. -/
structure World where
  tasks : List TaskState
  trace : List TraceEnt
deriving DecidableEq, Repr

def World.empty : World := ⟨[], []⟩

def World.task? (w : World) (t : TaskId) : Option TaskState := w.tasks[t]?

def World.setTask (w : World) (t : TaskId) (ts : TaskState) : World :=
  { w with tasks := w.tasks.set t ts }

/-- Append a fresh `TaskState.init` task (object construction). -/
def World.addTask (w : World) : World :=
  { w with tasks := w.tasks ++ [TaskState.init] }

/-- Append one trace entry. -/
def World.log (w : World) (e : TraceEnt) : World :=
  { w with trace := w.trace ++ [e] }

/-- Outcome of a computation: normal return, a raised Python exception
(carrying the world as mutated up to the raise), or fuel exhaustion of the
interpreter (not a Python-level result). -/
inductive Outcome where
  | ok (w : World)
  | err (e : Exc) (w : World)
  | fuelOut
deriving DecidableEq, Repr

/-- Sequencing: continue on normal return, propagate exceptions and fuel
exhaustion. -/
def Outcome.andThen (o : Outcome) (k : World → Outcome) : Outcome :=
  match o with
  | .ok w => k w
  | .err e w => .err e w
  | .fuelOut => .fuelOut

/-- The `except Exception` clause of `do_call`: an error deriving from
`Exception` is rethrown as `EventHandlerException` with the original as its
cause; any other `BaseException` propagates unchanged. -/
def wrapExc (e : Exc) : Exc := if e.isException then .eventHandler e else e

/-- `_Event.Bound.__iadd__`: append the handler to the subscriber list. -/
def subscribeW (w : World) (t : TaskId) (ev : EvId) (h : Handler) : Outcome :=
  match w.task? t with
  | none => .err .missingTask w
  | some ts => .ok (w.setTask t (ts.setSubs ev (ts.getSubs ev ++ [h])))

/-- `_Event.Bound.__isub__`: `list.remove` drops the first matching handler
and raises `ValueError` when it is absent. -/
def unsubscribeW (w : World) (t : TaskId) (ev : EvId) (h : Handler) : Outcome :=
  match w.task? t with
  | none => .err .missingTask w
  | some ts =>
      if h ∈ ts.getSubs ev then
        .ok (w.setTask t (ts.setSubs ev ((ts.getSubs ev).erase h)))
      else .err .valueError w

mutual

/-- `_Event.Bound.__call__`: when the owner is running, run the declared body
with the arguments and register notification of the subscribers with the
owner's transaction scope; when the owner is stopped, do nothing at all. -/
def fire (fuel : Nat) (t : TaskId) (ev : EvId) (arg : V) (w : World) : Outcome :=
  match fuel with
  | 0 => .fuelOut
  | fuel + 1 =>
    match w.task? t with
    | none => .err .missingTask w
    | some ts =>
      if ts.running then
        (runBody fuel t ev arg w).andThen (runWithinTransaction fuel t ev arg)
      else .ok w
termination_by structural fuel

/-- The declared body of an event.  A user event's body is host code observed
through the trace; `Task.on_failure` raises `NoFailureHandlerException` when
it has no subscriber, otherwise records the exception and stops the task;
`Future.on_success` records the result, sets `_succeeded` and stops. -/
def runBody (fuel : Nat) (t : TaskId) (ev : EvId) (arg : V) (w : World) : Outcome :=
  match fuel with
  | 0 => .fuelOut
  | fuel + 1 =>
    match ev with
    | .user _ => .ok (w.log (.body t ev arg))
    | .onFailure =>
      match w.task? t with
      | none => .err .missingTask w
      | some ts =>
        if ts.failSubs = [] then .err .noFailureHandler w
        else stop fuel t (w.setTask t { ts with exception := some arg })
    | .onSuccess =>
      match w.task? t with
      | none => .err .missingTask w
      | some ts =>
        stop fuel t (w.setTask t { ts with result := some arg, succeeded := true })

/-- `Task.stop`: raise on a non-running task, otherwise clear `_running`, run
the (no-op by default) `_cleanup` hook and `stop_task` every adopted child. -/
def stop (fuel : Nat) (t : TaskId) (w : World) : Outcome :=
  match fuel with
  | 0 => .fuelOut
  | fuel + 1 =>
    match w.task? t with
    | none => .err .missingTask w
    | some ts =>
      if ts.running then
        stopAdoptedList fuel ts.adopted (w.setTask t { ts with running := false })
      else .err .invalidState w
termination_by structural fuel

/-- The `for i in self._adopted_tasks: stop_task(i)` loop of `Task.stop`. -/
def stopAdoptedList (fuel : Nat) (l : List TaskId) (w : World) : Outcome :=
  match fuel with
  | 0 => .fuelOut
  | fuel + 1 =>
    match l with
    | [] => .ok w
    | c :: rest => (stopTaskF fuel c w).andThen (stopAdoptedList fuel rest)
termination_by structural fuel

/-- `stop_task`: stop the task when it is running, otherwise do nothing. -/
def stopTaskF (fuel : Nat) (t : TaskId) (w : World) : Outcome :=
  match fuel with
  | 0 => .fuelOut
  | fuel + 1 =>
    match w.task? t with
    | none => .err .missingTask w
    | some ts => if ts.running then stop fuel t w else .ok w
termination_by structural fuel

/-- `BasicTask._run_within_transaction` applied to the `do_call` closure of a
fire: with a transaction active, append the pending notification to the
queue; with none active, the context manager opens a scope whose queue holds
just this notification, closes it (resetting `_event_signal_queue` to `None`)
and flushes, which amounts to running the notification pass immediately with
no queue active. -/
def runWithinTransaction (fuel : Nat) (t : TaskId) (ev : EvId) (arg : V) (w : World) : Outcome :=
  match fuel with
  | 0 => .fuelOut
  | fuel + 1 =>
    match w.task? t with
    | none => .err .missingTask w
    | some ts =>
      match ts.queue with
      | some q => .ok (w.setTask t { ts with queue := some (q ++ [(ev, arg)]) })
      | none => doCall fuel t ev arg w
termination_by structural fuel

/-- The `do_call` closure: take a snapshot copy of the current subscriber
list (at the time `do_call` runs, not at the time of the fire) and notify it
in order. -/
def doCall (fuel : Nat) (t : TaskId) (ev : EvId) (arg : V) (w : World) : Outcome :=
  match fuel with
  | 0 => .fuelOut
  | fuel + 1 =>
    match w.task? t with
    | none => .err .missingTask w
    | some ts => runPassList fuel t ev arg (ts.getSubs ev) w
termination_by structural fuel

/-- The `for i in list(self._subscribers)` loop of `do_call`: each invocation
is traced; an error raised by a subscriber that is an `Exception` is rethrown
as `EventHandlerException` with the original as cause, any other
`BaseException` propagates unwrapped; either way the remaining subscribers of
the pass are skipped. -/
def runPassList (fuel : Nat) (t : TaskId) (ev : EvId) (arg : V) (hs : List Handler) (w : World) : Outcome :=
  match fuel with
  | 0 => .fuelOut
  | fuel + 1 =>
    match hs with
    | [] => .ok w
    | h :: rest =>
      match invokeHandler fuel h arg (w.log (.invoked t ev h arg)) with
      | .ok w2 => runPassList fuel t ev arg rest w2
      | .err e w2 => .err (wrapExc e) w2
      | .fuelOut => .fuelOut
termination_by structural fuel

/-- Calling a subscriber. -/
def invokeHandler (fuel : Nat) (h : Handler) (arg : V) (w : World) : Outcome :=
  match fuel with
  | 0 => .fuelOut
  | fuel + 1 =>
    match h with
    | .record _ => .ok w
    | .raiseErr e => .err e w
    | .subscribeH t2 ev2 h2 => subscribeW w t2 ev2 h2
    | .unsubscribeH t2 ev2 h2 => unsubscribeW w t2 ev2 h2
    | .onFailureOf t2 => fire fuel t2 .onFailure arg w

termination_by structural fuel
end

/-- The `for i in queue: i()` flush loop of `_transaction_context`, run after
`_event_signal_queue` has been reset to `None`. -/
def flushQueue (fuel : Nat) (t : TaskId) : List (EvId × V) → World → Outcome
  | [], w => .ok w
  | p :: rest, w => (doCall fuel t p.1 p.2 w).andThen (flushQueue fuel t rest)

/-- `BasicTask._transaction_context` wrapped around a body: with a transaction
already active the body runs under the existing queue; otherwise a fresh queue
is opened, the body runs, the queue field is reset to `None` (also when the
body raises, in which case the queue is discarded unflushed) and on normal
exit the accumulated queue is flushed in FIFO order. -/
def withTransaction (fuel : Nat) (t : TaskId) (body : World → Outcome) (w : World) : Outcome :=
  match w.task? t with
  | none => .err .missingTask w
  | some ts =>
    match ts.queue with
    | some _ => body w
    | none =>
      match body (w.setTask t { ts with queue := some [] }) with
      | .ok w1 =>
        match w1.task? t with
        | none => .err .missingTask w1
        | some ts1 =>
            flushQueue fuel t (ts1.queue.getD []) (w1.setTask t { ts1 with queue := none })
      | .err e w1 =>
        match w1.task? t with
        | none => .err e w1
        | some ts1 => .err e (w1.setTask t { ts1 with queue := none })
      | .fuelOut => .fuelOut

/-- Statements a transaction-scoped method's body may perform at top level:
fire a bound event, attach or detach a subscriber, or call a nested
transaction-scoped method that itself performs a sequence of fires. -/
inductive Act where
  | fireA (t : TaskId) (ev : EvId) (arg : V)
  | subA (t : TaskId) (ev : EvId) (h : Handler)
  | unsubA (t : TaskId) (ev : EvId) (h : Handler)
  | callB (t : TaskId) (fires : List (TaskId × EvId × V))
deriving DecidableEq, Repr

/-- Body of a nested transaction-scoped method: a sequence of fires. -/
def execFireList (fuel : Nat) : List (TaskId × EvId × V) → World → Outcome
  | [], w => .ok w
  | s :: rest, w => (fire fuel s.1 s.2.1 s.2.2 w).andThen (execFireList fuel rest)

/-- Run one statement of a transaction-scoped method's body. -/
def execAct (fuel : Nat) : Act → World → Outcome
  | .fireA t ev arg, w => fire fuel t ev arg w
  | .subA t ev h, w => subscribeW w t ev h
  | .unsubA t ev h, w => unsubscribeW w t ev h
  | .callB t fires, w => withTransaction fuel t (execFireList fuel fires) w

def execActs (fuel : Nat) : List Act → World → Outcome
  | [], w => .ok w
  | a :: rest, w => (execAct fuel a w).andThen (execActs fuel rest)

/-- `_Transaction.Bound.__call__`: widen the owner's transaction scope around
the method body. -/
def execTrans (fuel : Nat) (t : TaskId) (acts : List Act) (w : World) : Outcome :=
  withTransaction fuel t (execActs fuel acts) w

/-- `Task._adopt_task`: default the failure handler to the parent's bound
`on_failure`, append the child to `_adopted_tasks`, and subscribe the handler
to the child's `on_failure`. -/
def adoptW (w : World) (parent child : TaskId) (fh : Option Handler) : Outcome :=
  match w.task? parent with
  | none => .err .missingTask w
  | some tsp =>
      subscribeW (w.setTask parent { tsp with adopted := tsp.adopted ++ [child] })
        child .onFailure (fh.getD (.onFailureOf parent))

/-- `Task.create_failure`: construct a fresh instance (its id is the previous
length of the task list) and fire its `on_failure` with the exception. -/
def createFailure (fuel : Nat) (arg : V) (w : World) : Outcome :=
  fire fuel w.tasks.length .onFailure arg w.addTask

/-- `Future.create_success`: construct a fresh instance and fire its
`on_success` with the result. -/
def createSuccess (fuel : Nat) (arg : V) (w : World) : Outcome :=
  fire fuel w.tasks.length .onSuccess arg w.addTask

/-- `Task.running` property. -/
def TaskState.runningAcc (ts : TaskState) : Bool := ts.running

/-- `Task.failed` property: asserts the task is stopped, then reports whether
an exception was recorded. -/
def TaskState.failedAcc (ts : TaskState) : Except Exc Bool :=
  if ts.running then .error (.userExc 0 false) else .ok (ts.exception ≠ none)

/-- `Task.exception` property: asserts an exception was recorded. -/
def TaskState.exceptionAcc (ts : TaskState) : Except Exc V :=
  match ts.exception with
  | some v => .ok v
  | none => .error (.userExc 0 false)

/-- `Future.succeeded` property: asserts the task is stopped. -/
def TaskState.succeededAcc (ts : TaskState) : Except Exc Bool :=
  if ts.running then .error (.userExc 0 false) else .ok ts.succeeded

/-- `Future.result` property: asserts `_succeeded`. -/
def TaskState.resultAcc (ts : TaskState) : Except Exc V :=
  if ts.succeeded then
    match ts.result with
    | some v => .ok v
    | none => .error (.userExc 0 false)
  else .error (.userExc 0 false)

/-- The public operations of the library surface. -/
inductive Op where
  | subscribeOp (t : TaskId) (ev : EvId) (h : Handler)
  | unsubscribeOp (t : TaskId) (ev : EvId) (h : Handler)
  | fireOp (t : TaskId) (ev : EvId) (arg : V)
  | stopOp (t : TaskId)
  | stopTaskOp (t : TaskId)
  | adoptOp (parent child : TaskId) (fh : Option Handler)
  | createFailureOp (arg : V)
  | createSuccessOp (arg : V)
  | transOp (t : TaskId) (acts : List Act)
deriving DecidableEq, Repr

/-- Interpret one public operation. -/
def execOp (fuel : Nat) : Op → World → Outcome
  | .subscribeOp t ev h, w => subscribeW w t ev h
  | .unsubscribeOp t ev h, w => unsubscribeW w t ev h
  | .fireOp t ev arg, w => fire fuel t ev arg w
  | .stopOp t, w => stop fuel t w
  | .stopTaskOp t, w => stopTaskF fuel t w
  | .adoptOp p c fh, w => adoptW w p c fh
  | .createFailureOp arg, w => createFailure fuel arg w
  | .createSuccessOp arg, w => createSuccess fuel arg w
  | .transOp t acts, w => execTrans fuel t acts w

/-! ## Observation helpers -/

/-- Trace of the world an outcome carries (empty on fuel exhaustion). -/
def Outcome.traceOf : Outcome → List TraceEnt
  | .ok w => w.trace
  | .err _ w => w.trace
  | .fuelOut => []

/-- The exception an outcome raised, if any. -/
def Outcome.raised? : Outcome → Option Exc
  | .ok _ => none
  | .err e _ => some e
  | .fuelOut => none

/-- `running` flag of task `t` in a world. -/
def World.runningOf (w : World) (t : TaskId) : Option Bool :=
  (w.task? t).map TaskState.running

/-- `_exception` field of task `t` in a world. -/
def World.exceptionOf (w : World) (t : TaskId) : Option (Option V) :=
  (w.task? t).map TaskState.exception

/-- Current subscriber list of channel `(t, ev)` in a world. -/
def World.subsOf (w : World) (t : TaskId) (ev : EvId) : List Handler :=
  match w.task? t with
  | some ts => ts.getSubs ev
  | none => []

/-- `running` flag of task `t` in the world an outcome carries. -/
def Outcome.runningOf : Outcome → TaskId → Option Bool
  | .ok w, t => w.runningOf t
  | .err _ w, t => w.runningOf t
  | .fuelOut, _ => none

/-- `_exception` field of task `t` in the world an outcome carries. -/
def Outcome.exceptionOf : Outcome → TaskId → Option (Option V)
  | .ok w, t => w.exceptionOf t
  | .err _ w, t => w.exceptionOf t
  | .fuelOut, _ => none

/-- Whether a handler is an inert recording handler. -/
def Handler.isRecord : Handler → Bool
  | .record _ => true
  | _ => false

/-- All handlers of the list are inert recording handlers. -/
def allRecordL (hs : List Handler) : Bool := hs.all Handler.isRecord

/-- The `invoked` trace entries a notification pass over `hs` produces. -/
def invokedEntries (t : TaskId) (ev : EvId) (arg : V) : List Handler → List TraceEnt
  | [] => []
  | h :: rest => .invoked t ev h arg :: invokedEntries t ev arg rest

/-! ## Concrete scenario worlds -/

/-- The world of the C3 counterexample: one task carrying a user event with a
subscriber, stopped via `stop()`. -/
def c3World : World :=
  match stop 10 0 ⟨[{ TaskState.init with userSubs := [(0, [.record 1])] }], []⟩ with
  | .ok w => w
  | _ => ⟨[], []⟩
/-- Two fresh tasks: `P = 0`, `C = 1`. -/
def c5Start : World := ⟨[TaskState.init, TaskState.init], []⟩

/-- `P` first gets a failure handler of its own (`record tag`), then adopts
`C` via `_adopt_task` with the default failure handler. -/
def c5World (tag : Nat) : World :=
  match subscribeW c5Start 0 .onFailure (.record tag) with
  | .ok w1 =>
    match adoptW w1 0 1 none with
    | .ok w2 => w2
    | _ => w1
  | _ => c5Start

/-- `P` adopts `C` with the default failure handler but has no failure
handler of its own. -/
def c5WorldNoHandler : World :=
  match adoptW c5Start 0 1 none with
  | .ok w => w
  | _ => c5Start
/-- One task with one user event whose subscriber list is `[record 1]`. -/
def c2World : World := ⟨[{ TaskState.init with userSubs := [(0, [.record 1])] }], []⟩
/-- Task `0` has a user event whose sole subscriber is the bound
`on_failure` of the fresh task `1` (the shape `_adopt_task` installs), and
task `1` has no failure handlers. -/
def c7World : World :=
  ⟨[{ TaskState.init with userSubs := [(0, [.onFailureOf 1])] }, TaskState.init], []⟩

/-- Witness world for the amended C2: the pass's snapshot holds a recorder, a
handler that subscribes a new handler to the same channel, and a handler that
unsubscribes the first recorder from it. -/
def c2wWorld : World :=
  ⟨[{ TaskState.init with
      userSubs := [(0, [.record 1,
                        .subscribeH 0 (.user 0) (.record 5),
                        .unsubscribeH 0 (.user 0) (.record 1)])] }], []⟩

/-- Result of running the pass of `c2wWorld`. -/
def c2wFinal : World :=
  match doCall 50 0 (.user 0) (.nat 1) c2wWorld with
  | .ok w => w
  | _ => World.empty

/-- Witness world for the amended C7: one channel whose pass hits a raising
subscriber between two recorders. -/
def c7wWorld : World :=
  ⟨[{ TaskState.init with
      userSubs := [(0, [.record 1, .raiseErr (.userExc 3 true), .record 2])] }], []⟩

/-- The same task later, after the host replaced the faulty subscriber: the
channel now holds only recorders. -/
def c7wLater : World :=
  ⟨[{ TaskState.init with userSubs := [(0, [.record 1, .record 2])] }], []⟩

/-- Witness world for C4: one task with two user events, each with recording
subscribers. -/
def c4wWorld : World :=
  ⟨[{ TaskState.init with
      userSubs := [(0, [.record 1, .record 2]), (1, [.record 3])] }], []⟩

/-- The C4 witness body: fire user event 0, then call a nested
transaction-scoped method that fires user event 1. -/
def c4wActs : List Act :=
  [.fireA 0 (.user 0) (.nat 11),
   .callB 0 [(0, .user 1, .nat 22)]]

/-- Result of the C4 witness run. -/
def c4wFinal : World :=
  match execTrans 12 0 c4wActs c4wWorld with
  | .ok w => w
  | _ => World.empty

/-- Witness world for C9: task `0` (A) and task `1` (B), each with one
recording subscriber on a user event. -/
def c9wWorld : World :=
  ⟨[{ TaskState.init with userSubs := [(1, [.record 10])] },
    { TaskState.init with userSubs := [(0, [.record 20])] }], []⟩

/-- Result of the C9 witness run: a transaction-scoped method on A fires on B
and then on A itself. -/
def c9wFinal : World :=
  match execTrans 12 0 [.fireA 1 (.user 0) (.nat 1), .fireA 0 (.user 1) (.nat 2)] c9wWorld with
  | .ok w => w
  | _ => World.empty

/-- Witness worlds for C8: a single fresh task, and the same task stopped. -/
def c8World : World := ⟨[TaskState.init], []⟩

def c8Stopped : World := ⟨[{ TaskState.init with running := false }], []⟩

/-! ## Shape functions and predicates used by the statements -/

/-- A fire specification targets task `t`'s user event. -/
def onTaskUserB (t : TaskId) : TaskId × EvId × V → Bool
  | (t2, .user _, _) => t2 == t
  | _ => false

/-- A statement of a transaction-scoped method body that only fires user
events of task `t`, directly or through a nested transaction-scoped method
of the same task. -/
def actOnTaskUserB (t : TaskId) : Act → Bool
  | .fireA t2 (.user _) _ => t2 == t
  | .callB t2 fires => t2 == t && fires.all (onTaskUserB t)
  | _ => false

/-- `body` trace entries of a list of fires, in call order. -/
def bodiesF : List (TaskId × EvId × V) → List TraceEnt
  | [] => []
  | s :: rest => .body s.1 s.2.1 s.2.2 :: bodiesF rest

/-- Queue entries a list of fires appends, in raise order. -/
def pendingsF : List (TaskId × EvId × V) → List (EvId × V)
  | [] => []
  | s :: rest => (s.2.1, s.2.2) :: pendingsF rest

/-- `body` trace entries of a transaction method body, in call order. -/
def actsBodies : List Act → List TraceEnt
  | [] => []
  | .fireA t ev arg :: rest => .body t ev arg :: actsBodies rest
  | .callB _ fires :: rest => bodiesF fires ++ actsBodies rest
  | _ :: rest => actsBodies rest

/-- Queue entries a transaction method body appends, in raise order. -/
def actsPendings : List Act → List (EvId × V)
  | [] => []
  | .fireA _ ev arg :: rest => (ev, arg) :: actsPendings rest
  | .callB _ fires :: rest => pendingsF fires ++ actsPendings rest
  | _ :: rest => actsPendings rest

/-- `invoked` trace entries produced by flushing the given queue entries on
task `t` whose subscriber lists are those of `ts`, in enqueue order. -/
def notifsOf (t : TaskId) (ts : TaskState) : List (EvId × V) → List TraceEnt
  | [] => []
  | (ev, arg) :: rest => invokedEntries t ev arg (ts.getSubs ev) ++ notifsOf t ts rest

/-- The task list never resurrects a task: indices persist and a cleared
`running` flag stays cleared. -/
def Mono (w w' : World) : Prop :=
  w.tasks.length ≤ w'.tasks.length ∧
  ∀ (i : Nat) (a b : TaskState), w.tasks[i]? = some a → w'.tasks[i]? = some b →
    a.running = false → b.running = false

/-- `Mono` between the starting world and the world any outcome carries. -/
def monoOut (w : World) : Outcome → Prop
  | .ok w' => Mono w w'
  | .err _ w' => Mono w w'
  | .fuelOut => True

@[simp] theorem Outcome.andThen_ok (w : World) (k : World → Outcome) :
    (Outcome.ok w).andThen k = k w := rfl

@[simp] theorem Outcome.andThen_err (e : Exc) (w : World) (k : World → Outcome) :
    (Outcome.err e w).andThen k = .err e w := rfl

@[simp] theorem Outcome.andThen_fuelOut (k : World → Outcome) :
    Outcome.fuelOut.andThen k = .fuelOut := rfl

/-! ## Basic lemmas about the world -/

theorem lt_of_task? {w : World} {t : TaskId} {ts : TaskState}
    (h : w.task? t = some ts) : t < w.tasks.length := by
  by_contra h'
  rw [World.task?, List.getElem?_eq_none (Nat.le_of_not_lt h')] at h
  exact Option.noConfusion h

theorem task?_addTask_last (w : World) :
    w.addTask.task? w.tasks.length = some TaskState.init := by
  simp [World.addTask, World.task?]

theorem task?_setTask_self {w : World} {t : TaskId} {ts0 : TaskState}
    (h : w.task? t = some ts0) (ts : TaskState) :
    (w.setTask t ts).task? t = some ts := by
  simp [World.setTask, World.task?, List.getElem?_set_self (lt_of_task? h)]

theorem task?_setTask_ne (w : World) {t t' : TaskId} (h : t ≠ t') (ts : TaskState) :
    (w.setTask t ts).task? t' = w.task? t' := by
  simp [World.setTask, World.task?, List.getElem?_set_ne h]

theorem setTask_setTask (w : World) (t : TaskId) (a b : TaskState) :
    (w.setTask t a).setTask t b = w.setTask t b := by
  simp [World.setTask, List.set_set]

theorem trace_setTask (w : World) (t : TaskId) (ts : TaskState) :
    (w.setTask t ts).trace = w.trace := rfl

theorem task?_log (w : World) (e : TraceEnt) (t : TaskId) :
    (w.log e).task? t = w.task? t := rfl

theorem log_setTask (w : World) (t : TaskId) (ts : TaskState) (e : TraceEnt) :
    (w.setTask t ts).log e = (w.log e).setTask t ts := rfl

/-! ## One-step unfolding lemmas for the interpreter -/

theorem fire_succ (f : Nat) (t : TaskId) (ev : EvId) (arg : V) (w : World) :
    fire (f + 1) t ev arg w =
      match w.task? t with
      | none => .err .missingTask w
      | some ts =>
        if ts.running then
          (runBody f t ev arg w).andThen (runWithinTransaction f t ev arg)
        else .ok w := rfl

theorem runBody_user (f : Nat) (t : TaskId) (n : Nat) (arg : V) (w : World) :
    runBody (f + 1) t (.user n) arg w = .ok (w.log (.body t (.user n) arg)) := rfl

theorem runWithinTransaction_succ (f : Nat) (t : TaskId) (ev : EvId) (arg : V) (w : World) :
    runWithinTransaction (f + 1) t ev arg w =
      match w.task? t with
      | none => .err .missingTask w
      | some ts =>
        match ts.queue with
        | some q => .ok (w.setTask t { ts with queue := some (q ++ [(ev, arg)]) })
        | none => doCall f t ev arg w := rfl

theorem doCall_succ (f : Nat) (t : TaskId) (ev : EvId) (arg : V) (w : World) :
    doCall (f + 1) t ev arg w =
      match w.task? t with
      | none => .err .missingTask w
      | some ts => runPassList f t ev arg (ts.getSubs ev) w := rfl

theorem runPassList_nil (f : Nat) (t : TaskId) (ev : EvId) (arg : V) (w : World) :
    runPassList (f + 1) t ev arg [] w = .ok w := rfl

theorem runPassList_cons_ok {f : Nat} {t : TaskId} {ev : EvId} {arg : V}
    {h : Handler} {rest : List Handler} {w w2 : World}
    (hinv : invokeHandler f h arg (w.log (.invoked t ev h arg)) = .ok w2) :
    runPassList (f + 1) t ev arg (h :: rest) w = runPassList f t ev arg rest w2 := by
  rw [runPassList, hinv]

theorem runPassList_cons_err {f : Nat} {t : TaskId} {ev : EvId} {arg : V}
    {h : Handler} {rest : List Handler} {w w2 : World} {e : Exc}
    (hinv : invokeHandler f h arg (w.log (.invoked t ev h arg)) = .err e w2) :
    runPassList (f + 1) t ev arg (h :: rest) w = .err (wrapExc e) w2 := by
  rw [runPassList, hinv]

theorem runPassList_cons_fuelOut {f : Nat} {t : TaskId} {ev : EvId} {arg : V}
    {h : Handler} {rest : List Handler} {w : World}
    (hinv : invokeHandler f h arg (w.log (.invoked t ev h arg)) = .fuelOut) :
    runPassList (f + 1) t ev arg (h :: rest) w = .fuelOut := by
  rw [runPassList, hinv]

theorem invokeHandler_record (f : Nat) (tag : Nat) (arg : V) (w : World) :
    invokeHandler (f + 1) (.record tag) arg w = .ok w := rfl

theorem invokeHandler_raise (f : Nat) (e : Exc) (arg : V) (w : World) :
    invokeHandler (f + 1) (.raiseErr e) arg w = .err e w := rfl

theorem stop_succ (f : Nat) (t : TaskId) (w : World) :
    stop (f + 1) t w =
      match w.task? t with
      | none => .err .missingTask w
      | some ts =>
        if ts.running then
          stopAdoptedList f ts.adopted (w.setTask t { ts with running := false })
        else .err .invalidState w := rfl

theorem stopAdoptedList_nil (f : Nat) (w : World) :
    stopAdoptedList (f + 1) [] w = .ok w := rfl

/-! ## C1 — `Task.create_failure` -/

/-- C1: the claim says `Task.create_failure(e)` returns a task with
`running == false`, `failed == true`, `exception == e`.  On the code this is
impossible: the freshly constructed task has no `on_failure` subscribers, so
the body's guard raises `NoFailureHandlerException` before recording anything,
for every exception and in every starting world; the new task is left running
with no exception recorded, and no task is ever returned. -/
theorem c1_create_failure_raises (fuel : Nat) (v : V) (w : World) :
    createFailure (fuel + 2) v w = .err .noFailureHandler w.addTask ∧
    w.addTask.runningOf w.tasks.length = some true ∧
    w.addTask.exceptionOf w.tasks.length = some none := by
  refine ⟨?_, ?_, ?_⟩
  · show fire (fuel + 1 + 1) w.tasks.length .onFailure v w.addTask = _
    rw [fire, task?_addTask_last]
    simp [TaskState.init, runBody, task?_addTask_last, Outcome.andThen]
  · simp [World.runningOf, task?_addTask_last, TaskState.init]
  · simp [World.exceptionOf, task?_addTask_last, TaskState.init]

/-! ## C3 — firing an event on a stopped task -/

/-- C3 (amended): once the owning task's `running` flag is `false`, a fire is
a complete no-op: neither the declared body nor any subscriber notification
runs, and the world is returned unchanged. -/
theorem c3_stopped_fire_noop (fuel : Nat) (t : TaskId) (ev : EvId) (arg : V)
    (w : World) (ts : TaskState) (hta : w.task? t = some ts)
    (hrun : ts.running = false) :
    fire (fuel + 1) t ev arg w = .ok w := by
  rw [fire, hta]
  simp [hrun]


/-- C3 counterexample: on a stopped task with a subscriber attached, firing a
user event leaves the world exactly unchanged — in particular no `body` trace
entry appears, refuting the claim that the declared body still executes;
the guard `if self._owner._running` in `_Event.Bound.__call__` gates the body
and the notification alike. -/
theorem c3_counterexample :
    fire 100 0 (.user 0) (.nat 5) c3World = .ok c3World ∧
    c3World.trace = [] ∧
    c3World.subsOf 0 (.user 0) = [.record 1] ∧
    c3World.runningOf 0 = some false := by
  refine ⟨by decide, by decide, by decide, by decide⟩

/-- Witness for `c3_stopped_fire_noop` at a concrete input. -/
theorem c3_witness :
    c3World.task? 0 = some { TaskState.init with running := false, userSubs := [(0, [.record 1])] } ∧
    fire 7 0 (.user 0) (.nat 5) c3World = .ok c3World :=
  ⟨rfl, c3_stopped_fire_noop 6 0 (.user 0) (.nat 5) c3World _ rfl rfl⟩

/-! ## C6 — `on_failure` with zero subscribers -/

/-- C6: firing `on_failure` on a running task with an empty subscriber list
raises `NoFailureHandlerException` and leaves the world exactly unchanged:
the guard raises before `_exception` is recorded and before `stop()` is
called, so the task remains running with no exception. -/
theorem c6_no_failure_handler (fuel : Nat) (t : TaskId) (v : V) (w : World)
    (ts : TaskState) (hta : w.task? t = some ts) (hrun : ts.running = true)
    (hsubs : ts.failSubs = []) :
    fire (fuel + 2) t .onFailure v w = .err .noFailureHandler w := by
  rw [show fuel + 2 = fuel + 1 + 1 from rfl, fire, hta]
  simp [hrun, runBody, hta, hsubs, Outcome.andThen]

/-- Witness for `c6_no_failure_handler` at a concrete input. -/
theorem c6_witness :
    World.task? ⟨[TaskState.init], []⟩ 0 = some TaskState.init ∧
    fire 2 0 .onFailure (.nat 1) ⟨[TaskState.init], []⟩ =
      .err .noFailureHandler ⟨[TaskState.init], []⟩ :=
  ⟨rfl, c6_no_failure_handler 0 0 (.nat 1) ⟨[TaskState.init], []⟩ TaskState.init rfl rfl rfl⟩

/-! ## C10 — `Future.create_success` -/

/-- C10: `Future.create_success(v)` returns a future whose `result` is `v`,
whose `succeeded` is `true` and whose `running` is `false`, even though the
fresh future has no subscribers: the `on_success` body records the result,
sets `_succeeded` and stops the task, and the notification pass over the
empty subscriber list is a no-op. -/
theorem c10_create_success (fuel : Nat) (v : V) (w : World) :
    createSuccess (fuel + 4) v w =
      .ok { w with tasks := w.tasks ++ [⟨false, none, none, [], some v, true, [], [], []⟩] } ∧
    TaskState.resultAcc ⟨false, none, none, [], some v, true, [], [], []⟩ = .ok v ∧
    TaskState.succeededAcc ⟨false, none, none, [], some v, true, [], [], []⟩ = .ok true ∧
    TaskState.runningAcc ⟨false, none, none, [], some v, true, [], [], []⟩ = false := by
  refine ⟨?_, rfl, rfl, rfl⟩
  show fire (fuel + 3 + 1) w.tasks.length .onSuccess v w.addTask = _
  rw [fire, task?_addTask_last]
  simp only [TaskState.init, runBody, task?_addTask_last, stop, stopAdoptedList,
    runWithinTransaction, doCall, runPassList, Outcome.andThen, World.addTask,
    World.setTask, World.task?, TaskState.getSubs]
  simp [TaskState.init, List.set_append, Outcome.andThen, TaskState.getSubs, runPassList]

/-! ## C5 — adoption failure cascade -/


/-- C5 counterexample: with the claim's exact setup — a running parent `P`
adopting a running child `C` with the default failure handler, and nothing
else — firing `C.on_failure(e)` does not give `P.exception == e` and
`P.running == false` as claimed: the default handler re-fires `P.on_failure`,
whose body finds `P`'s own subscriber list empty and raises
`NoFailureHandlerException` before recording anything, so `P` stays running
with no exception (only `C` stops). -/
theorem c5_counterexample :
    (fire 20 1 .onFailure (.nat 3) c5WorldNoHandler).raised? = some .noFailureHandler ∧
    (fire 20 1 .onFailure (.nat 3) c5WorldNoHandler).runningOf 0 = some true ∧
    (fire 20 1 .onFailure (.nat 3) c5WorldNoHandler).exceptionOf 0 = some none ∧
    (fire 20 1 .onFailure (.nat 3) c5WorldNoHandler).runningOf 1 = some false := by
  refine ⟨by decide, by decide, by decide, by decide⟩

set_option maxHeartbeats 4000000 in
/-- C5 (amended): provided `P`'s own `on_failure` has at least one subscriber
(here `record tag`), firing `C.on_failure(e)` cascades as the claim says:
`P.exception == e`, `P.running == false` and `C.running == false` (and `C`
records the exception too). -/
theorem c5_cascade (v : V) (tag : Nat) :
    fire 12 1 .onFailure v (c5World tag) =
      .ok ⟨[⟨false, none, some v, [1], none, false, [.record tag], [], []⟩,
            ⟨false, none, some v, [], none, false, [.onFailureOf 0], [], []⟩],
           [.invoked 1 .onFailure (.onFailureOf 0) v,
            .invoked 0 .onFailure (.record tag) v]⟩ ∧
    (Outcome.ok (World.mk
        [⟨false, none, some v, [1], none, false, [.record tag], [], []⟩,
         ⟨false, none, some v, [], none, false, [.onFailureOf 0], [], []⟩]
        [.invoked 1 .onFailure (.onFailureOf 0) v,
         .invoked 0 .onFailure (.record tag) v])).exceptionOf 0 = some (some v) ∧
    (Outcome.ok (World.mk
        [⟨false, none, some v, [1], none, false, [.record tag], [], []⟩,
         ⟨false, none, some v, [], none, false, [.onFailureOf 0], [], []⟩]
        [.invoked 1 .onFailure (.onFailureOf 0) v,
         .invoked 0 .onFailure (.record tag) v])).runningOf 0 = some false ∧
    (Outcome.ok (World.mk
        [⟨false, none, some v, [1], none, false, [.record tag], [], []⟩,
         ⟨false, none, some v, [], none, false, [.onFailureOf 0], [], []⟩]
        [.invoked 1 .onFailure (.onFailureOf 0) v,
         .invoked 0 .onFailure (.record tag) v])).runningOf 1 = some false :=
  ⟨rfl, rfl, rfl, rfl⟩

/-! ## C2 and C7 counterexamples -/


/-- C2 counterexample: inside an active transaction, the subscriber list at
the moment of the fire is `[record 1]`, but a handler subscribed between the
fire and the transaction's flush is invoked on behalf of that same fire:
`do_call` copies `self._subscribers` only when it runs at flush time, not
when the event is fired. -/
theorem c2_counterexample :
    c2World.subsOf 0 (.user 0) = [.record 1] ∧
    (execTrans 100 0 [.fireA 0 (.user 0) (.nat 5), .subA 0 (.user 0) (.record 2)]
        c2World).traceOf =
      [.body 0 (.user 0) (.nat 5),
       .invoked 0 (.user 0) (.record 1) (.nat 5),
       .invoked 0 (.user 0) (.record 2) (.nat 5)] ∧
    (execTrans 100 0 [.fireA 0 (.user 0) (.nat 5), .subA 0 (.user 0) (.record 2)]
        c2World).raised? = none := by
  refine ⟨by decide, by decide, by decide⟩


/-- C7 counterexample: a subscriber that raises `NoFailureHandlerException`
(a direct `BaseException` subclass, exactly what a default adoption failure
handler raises when its own task has no handlers) is not rethrown as
`EventHandlerException`: the `except Exception` clause does not catch it, so
it propagates unwrapped, refuting the claim for errors that are not
`Exception` instances. -/
theorem c7_counterexample :
    (doCall 50 0 (.user 0) (.nat 1) c7World).raised? = some .noFailureHandler := by
  decide

/-! ## C2 — snapshot timing of a notification pass -/

/-- A structural handler that returns normally leaves the trace unchanged
(it only touches subscriber lists). -/
theorem invoke_structural_trace {fuel : Nat} {h : Handler} {arg : V} {w w' : World}
    (hst : h.isStructural = true) (hok : invokeHandler fuel h arg w = .ok w') :
    w'.trace = w.trace := by
  cases fuel with
  | zero => exact absurd hok (by simp [invokeHandler])
  | succ f =>
    cases h with
    | record tag =>
      rw [invokeHandler] at hok
      cases hok
      rfl
    | raiseErr e => exact absurd hst (by simp [Handler.isStructural])
    | onFailureOf t2 => exact absurd hst (by simp [Handler.isStructural])
    | subscribeH t2 ev2 h2 =>
      rw [invokeHandler, subscribeW] at hok
      cases hta : World.task? w t2 with
      | none => simp only [hta] at hok; exact absurd hok (by simp)
      | some ts => simp only [hta] at hok; cases hok; rfl
    | unsubscribeH t2 ev2 h2 =>
      rw [invokeHandler, unsubscribeW] at hok
      cases hta : World.task? w t2 with
      | none => simp only [hta] at hok; exact absurd hok (by simp)
      | some ts =>
        simp only [hta] at hok
        by_cases hmem : h2 ∈ ts.getSubs ev2
        · rw [if_pos hmem] at hok; cases hok; rfl
        · rw [if_neg hmem] at hok; exact absurd hok (by simp)

/-- A notification pass over structural handlers that completes normally
appends exactly one `invoked` entry per handler of the snapshot, in order,
regardless of the subscriptions and unsubscriptions those handlers perform. -/
theorem runPassList_structural_trace (hs : List Handler) :
    ∀ (fuel : Nat) (t : TaskId) (ev : EvId) (arg : V) (w w' : World),
    (∀ h ∈ hs, h.isStructural = true) →
    runPassList fuel t ev arg hs w = .ok w' →
    w'.trace = w.trace ++ invokedEntries t ev arg hs := by
  induction hs with
  | nil =>
    intro fuel t ev arg w w' _ hok
    cases fuel with
    | zero => exact absurd hok (by simp [runPassList])
    | succ f =>
      rw [runPassList] at hok
      cases hok
      simp [invokedEntries]
  | cons h rest ih =>
    intro fuel t ev arg w w' hst hok
    cases fuel with
    | zero => exact absurd hok (by simp [runPassList])
    | succ f =>
      rw [runPassList] at hok
      cases hinv : invokeHandler f h arg (w.log (.invoked t ev h arg)) with
      | ok w2 =>
        rw [hinv] at hok
        have htr2 : w2.trace = w.trace ++ [.invoked t ev h arg] :=
          invoke_structural_trace (hst h (by simp)) hinv
        have := ih f t ev arg w2 w' (fun h hm => hst h (by simp [hm])) hok
        rw [this, htr2, invokedEntries]
        simp
      | err e w2 => rw [hinv] at hok; exact absurd hok (by simp)
      | fuelOut => rw [hinv] at hok; exact absurd hok (by simp)

/-- C2 (amended): the handlers invoked on behalf of a fire are exactly the
channel's subscriber list as it is at the moment the fire's deferred
notification (`do_call`) begins, in subscription order; handlers subscribing
or unsubscribing during the pass do not change which handlers the pass
invokes.  (At the moment of the fire itself the list may differ — see
`c2_counterexample`.) -/
theorem c2_snapshot_at_pass_start (fuel : Nat) (t : TaskId) (ev : EvId) (arg : V)
    (w w' : World) (hst : ∀ h ∈ w.subsOf t ev, h.isStructural = true)
    (hok : doCall fuel t ev arg w = .ok w') :
    w'.trace = w.trace ++ invokedEntries t ev arg (w.subsOf t ev) := by
  cases fuel with
  | zero => exact absurd hok (by simp [doCall])
  | succ f =>
    rw [doCall] at hok
    cases hta : World.task? w t with
    | none => rw [hta] at hok; exact absurd hok (by simp)
    | some ts =>
      rw [hta] at hok
      have hsubs : w.subsOf t ev = ts.getSubs ev := by
        rw [World.subsOf, hta]
      rw [hsubs] at hst ⊢
      exact runPassList_structural_trace (ts.getSubs ev) f t ev arg w w' hst hok

/-- Witness for `c2_snapshot_at_pass_start` at a concrete input, with the
snapshot containing a recorder, a subscribing handler and an unsubscribing
handler. -/
theorem c2_witness :
    (∀ h ∈ c2wWorld.subsOf 0 (.user 0), h.isStructural = true) ∧
    c2wFinal.trace = c2wWorld.trace ++
      invokedEntries 0 (.user 0) (.nat 1) (c2wWorld.subsOf 0 (.user 0)) :=
  ⟨by decide,
   c2_snapshot_at_pass_start 50 0 (.user 0) (.nat 1) c2wWorld c2wFinal (by decide) (by decide)⟩

/-! ## Passes over recording subscribers, and passes hitting a raising one -/

/-- A notification pass over inert recording subscribers succeeds and appends
exactly their `invoked` entries, in order. -/
theorem runPassList_record (hs : List Handler) :
    ∀ (fuel : Nat) (t : TaskId) (ev : EvId) (arg : V) (w : World),
    allRecordL hs = true →
    runPassList fuel t ev arg hs w ≠ .fuelOut →
    runPassList fuel t ev arg hs w =
      .ok { w with trace := w.trace ++ invokedEntries t ev arg hs } := by
  induction hs with
  | nil =>
    intro fuel t ev arg w _ hne
    cases fuel with
    | zero => exact absurd rfl hne
    | succ f => rw [runPassList]; simp [invokedEntries]
  | cons h rest ih =>
    intro fuel t ev arg w hrec hne
    have hh : h.isRecord = true := by
      simp [allRecordL] at hrec
      exact hrec.1
    obtain ⟨tag, rfl⟩ : ∃ tag, h = .record tag := by
      cases h <;> simp_all [Handler.isRecord]
    cases fuel with
    | zero => exact absurd rfl hne
    | succ f =>
      cases f with
      | zero =>
        refine absurd ?_ hne
        exact runPassList_cons_fuelOut rfl
      | succ g =>
        have hrest : allRecordL rest = true := by
          simp [allRecordL] at hrec ⊢
          exact hrec.2
        rw [runPassList_cons_ok (invokeHandler_record g tag arg _)] at hne ⊢
        rw [ih (g + 1) t ev arg _ hrest hne]
        simp [World.log, invokedEntries]

/-- `do_call` over a channel of inert recording subscribers. -/
theorem doCall_record (fuel : Nat) (t : TaskId) (ev : EvId) (arg : V) (w : World)
    (ts : TaskState) (hta : w.task? t = some ts)
    (hrec : allRecordL (ts.getSubs ev) = true)
    (hne : doCall fuel t ev arg w ≠ .fuelOut) :
    doCall fuel t ev arg w =
      .ok { w with trace := w.trace ++ invokedEntries t ev arg (ts.getSubs ev) } := by
  cases fuel with
  | zero => exact absurd rfl hne
  | succ f =>
    rw [doCall] at hne ⊢
    simp only [hta] at hne ⊢
    exact runPassList_record (ts.getSubs ev) f t ev arg w hrec hne

/-- Firing a user event on a running task with no active transaction and
inert recording subscribers: the body's entry and then every subscriber's
entry are appended immediately. -/
theorem fire_user_immediate (fuel : Nat) (t : TaskId) (n : Nat) (arg : V) (w : World)
    (ts : TaskState) (hta : w.task? t = some ts) (hrun : ts.running = true)
    (hq : ts.queue = none) (hrec : allRecordL (ts.getSubs (.user n)) = true)
    (hne : fire fuel t (.user n) arg w ≠ .fuelOut) :
    fire fuel t (.user n) arg w =
      .ok { w with trace := w.trace ++ .body t (.user n) arg ::
            invokedEntries t (.user n) arg (ts.getSubs (.user n)) } := by
  cases fuel with
  | zero => exact absurd rfl hne
  | succ f =>
    rw [fire] at hne ⊢
    simp only [hta, hrun, if_true] at hne ⊢
    cases f with
    | zero => exact absurd (by rw [runBody]; rfl) hne
    | succ g =>
      rw [runBody] at hne ⊢
      simp only [Outcome.andThen_ok] at hne ⊢
      rw [runWithinTransaction] at hne ⊢
      simp only [task?_log, hta, hq] at hne ⊢
      have hta2 : (w.log (.body t (.user n) arg)).task? t = some ts := by
        rw [task?_log, hta]
      rw [doCall_record g t (.user n) arg _ ts hta2 hrec hne]
      simp [World.log]

/-- A notification pass that reaches a raising subscriber after inert
recorders: the entries up to and including the raising subscriber are
appended, the error is passed through the `except Exception` clause
(`wrapExc`), and the remaining subscribers are not invoked. -/
theorem runPassList_raise (pre : List Handler) :
    ∀ (fuel : Nat) (t : TaskId) (ev : EvId) (arg : V) (e : Exc)
      (post : List Handler) (w : World),
    (∀ h ∈ pre, h.isRecord = true) →
    runPassList fuel t ev arg (pre ++ .raiseErr e :: post) w ≠ .fuelOut →
    runPassList fuel t ev arg (pre ++ .raiseErr e :: post) w =
      .err (wrapExc e)
        { w with trace := w.trace ++ invokedEntries t ev arg (pre ++ [.raiseErr e]) } := by
  induction pre with
  | nil =>
    intro fuel t ev arg e post w _ hne
    simp only [List.nil_append] at hne ⊢
    cases fuel with
    | zero => exact absurd rfl hne
    | succ f =>
      cases f with
      | zero =>
        refine absurd ?_ hne
        exact runPassList_cons_fuelOut rfl
      | succ g =>
        rw [runPassList_cons_err (invokeHandler_raise g e arg _)]
        simp [World.log, invokedEntries]
  | cons h pre' ih =>
    intro fuel t ev arg e post w hrec hne
    obtain ⟨tag, rfl⟩ : ∃ tag, h = .record tag := by
      have := hrec h (by simp)
      cases h <;> simp_all [Handler.isRecord]
    simp only [List.cons_append] at hne ⊢
    cases fuel with
    | zero => exact absurd rfl hne
    | succ f =>
      cases f with
      | zero =>
        refine absurd ?_ hne
        exact runPassList_cons_fuelOut rfl
      | succ g =>
        rw [runPassList_cons_ok (invokeHandler_record g tag arg _)] at hne ⊢
        rw [ih (g + 1) t ev arg e post _ (fun h hm => hrec h (by simp [hm])) hne]
        simp [World.log, invokedEntries, List.cons_append]

/-- C7 (amended): if a subscriber raises during a notification pass, the
error goes through the `except Exception` clause — an `Exception` instance
is rethrown as `EventHandlerException` with the original as cause, while a
bare `BaseException` (such as the library's own `NoFailureHandlerException`)
propagates unwrapped (`wrapExc`); the remaining subscribers of that pass are
not invoked.  A later, independent fire of the same event still runs its
body and invokes all subscribers registered at that later time, in order. -/
theorem c7_subscriber_error :
    (∀ (pre post : List Handler) (e : Exc) (fuel : Nat) (t : TaskId) (ev : EvId)
       (arg : V) (w : World) (ts : TaskState),
       w.task? t = some ts → ts.getSubs ev = pre ++ .raiseErr e :: post →
       (∀ h ∈ pre, h.isRecord = true) →
       doCall fuel t ev arg w ≠ .fuelOut →
       doCall fuel t ev arg w =
         .err (wrapExc e)
           { w with trace := w.trace ++ invokedEntries t ev arg (pre ++ [.raiseErr e]) }) ∧
    (∀ (fuel : Nat) (t : TaskId) (n : Nat) (arg : V) (w : World) (ts : TaskState),
       w.task? t = some ts → ts.running = true → ts.queue = none →
       allRecordL (ts.getSubs (.user n)) = true →
       fire fuel t (.user n) arg w ≠ .fuelOut →
       fire fuel t (.user n) arg w =
         .ok { w with trace := w.trace ++ .body t (.user n) arg ::
               invokedEntries t (.user n) arg (ts.getSubs (.user n)) }) := by
  constructor
  · intro pre post e fuel t ev arg w ts hta hsubs hrec hne
    cases fuel with
    | zero => exact absurd rfl hne
    | succ f =>
      rw [doCall] at hne ⊢
      simp only [hta, hsubs] at hne ⊢
      exact runPassList_raise pre f t ev arg e post w hrec hne
  · exact fun fuel t n arg w ts hta hrun hq hrec hne =>
      fire_user_immediate fuel t n arg w ts hta hrun hq hrec hne

/-- Witness for `c7_subscriber_error` at concrete inputs: the pass on
`c7wWorld` aborts at the raising subscriber with the error wrapped, and a
later fire on `c7wLater` (same channel, subscribers replaced) notifies all
of them. -/
theorem c7_witness :
    doCall 50 0 (.user 0) (.nat 1) c7wWorld =
      .err (wrapExc (.userExc 3 true))
        { c7wWorld with trace := c7wWorld.trace ++
            invokedEntries 0 (.user 0) (.nat 1) [.record 1, .raiseErr (.userExc 3 true)] } ∧
    fire 50 0 (.user 0) (.nat 2) c7wLater =
      .ok { c7wLater with trace := c7wLater.trace ++ .body 0 (.user 0) (.nat 2) ::
            invokedEntries 0 (.user 0) (.nat 2) [.record 1, .record 2] } :=
  ⟨c7_subscriber_error.1 [.record 1] [.record 2] (.userExc 3 true) 50 0 (.user 0)
     (.nat 1) c7wWorld _ rfl rfl (by decide) (by decide),
   c7_subscriber_error.2 50 0 0 (.nat 2) c7wLater _ rfl rfl rfl (by decide) (by decide)⟩

/-! ## Transaction batching: body phase and flush phase -/

theorem setTask_same {w : World} {t : TaskId} {ts : TaskState}
    (hta : w.task? t = some ts) : w.setTask t ts = w := by
  rw [World.setTask]
  have : w.tasks.set t ts = w.tasks := by
    apply List.ext_getElem?
    intro i
    rw [List.getElem?_set]
    by_cases hit : t = i
    · subst hit
      rw [if_pos rfl, if_pos (lt_of_task? hta)]
      exact hta.symm
    · rw [if_neg hit]
  rw [this]

theorem getSubs_set_queue (ts : TaskState) (x : Option (List (EvId × V))) (ev : EvId) :
    TaskState.getSubs { ts with queue := x } ev = ts.getSubs ev := by
  cases ev <;> rfl

theorem notifsOf_set_queue (t : TaskId) (ts : TaskState) (x : Option (List (EvId × V))) :
    ∀ pend : List (EvId × V), notifsOf t { ts with queue := x } pend = notifsOf t ts pend := by
  intro pend
  induction pend with
  | nil => rfl
  | cons p rest ih =>
    obtain ⟨ev, arg⟩ := p
    rw [notifsOf, notifsOf, ih, getSubs_set_queue]

/-- A fire of a user event on a running task while a transaction is active on
it: the body's trace entry is appended and the notification is queued; the
subscribers are not consulted at all. -/
theorem fire_user_queued (fuel : Nat) (t : TaskId) (n : Nat) (arg : V) (w : World)
    (ts : TaskState) (q : List (EvId × V)) (hta : w.task? t = some ts)
    (hrun : ts.running = true) (hq : ts.queue = some q)
    (hne : fire fuel t (.user n) arg w ≠ .fuelOut) :
    fire fuel t (.user n) arg w =
      .ok ((w.log (.body t (.user n) arg)).setTask t
        { ts with queue := some (q ++ [(.user n, arg)]) }) := by
  cases fuel with
  | zero => exact absurd rfl hne
  | succ f =>
    rw [fire_succ] at hne ⊢
    simp only [hta, hrun, if_true] at hne ⊢
    cases f with
    | zero => exact absurd (by rw [runBody]; rfl) hne
    | succ g =>
      rw [runBody_user]
      simp only [Outcome.andThen_ok]
      rw [runWithinTransaction_succ]
      simp only [task?_log, hta, hq]
      rw [hrun]

/-- Body phase of a nested transaction-scoped method: a sequence of fires of
user events of task `t`, run while `t`'s queue is active, appends the bodies'
trace entries in call order and the pending notifications in raise order. -/
theorem execFireList_queued (fires : List (TaskId × EvId × V)) :
    ∀ (fuel : Nat) (t : TaskId) (w : World) (ts : TaskState) (q : List (EvId × V)),
    fires.all (onTaskUserB t) = true →
    w.task? t = some ts → ts.running = true → ts.queue = some q →
    execFireList fuel fires w ≠ .fuelOut →
    execFireList fuel fires w =
      .ok { w with
        trace := w.trace ++ bodiesF fires,
        tasks := w.tasks.set t { ts with queue := some (q ++ pendingsF fires) } } := by
  induction fires with
  | nil =>
    intro fuel t w ts q _ hta _ hq _
    rw [execFireList]
    have h1 : { ts with queue := some (q ++ pendingsF []) } = ts := by
      rw [pendingsF]
      simp [← hq]
    rw [h1]
    have h2 : w.tasks.set t ts = w.tasks := congrArg World.tasks (setTask_same hta)
    rw [h2, bodiesF]
    simp
  | cons s rest ih =>
    intro fuel t w ts q hall hta hrun hq hne
    obtain ⟨t2, ev2, a2⟩ := s
    obtain ⟨ht2, n, hn⟩ : t2 = t ∧ ∃ n, ev2 = .user n := by
      simp only [List.all_cons, Bool.and_eq_true] at hall
      cases ev2 <;> simp_all [onTaskUserB]
    subst ht2
    subst hn
    have hrest : rest.all (onTaskUserB t2) = true := by
      simp only [List.all_cons, Bool.and_eq_true] at hall
      exact hall.2
    rw [execFireList] at hne ⊢
    have hfne : fire fuel t2 (.user n) a2 w ≠ .fuelOut := by
      intro hc
      exact hne (by rw [hc]; rfl)
    have hf := fire_user_queued fuel t2 n a2 w ts q hta hrun hq hfne
    rw [hf] at hne ⊢
    simp only [Outcome.andThen_ok] at hne ⊢
    set w1 := (w.log (.body t2 (.user n) a2)).setTask t2
      { ts with queue := some (q ++ [(.user n, a2)]) } with hw1
    have hta1 : w1.task? t2 = some { ts with queue := some (q ++ [(.user n, a2)]) } :=
      task?_setTask_self (show (w.log (.body t2 (.user n) a2)).task? t2 = some ts from hta) _
    have := ih fuel t2 w1 _ (q ++ [(.user n, a2)]) hrest hta1 hrun rfl hne
    rw [this]
    simp only [hw1, World.setTask, World.log]
    simp [List.set_set, bodiesF, pendingsF]

/-- Body phase of the outermost transaction-scoped method: every statement
that fires a user event of `t` (directly or through a nested
transaction-scoped method of `t`) appends its body entries in call order and
its pending notifications in raise order to `t`'s active queue. -/
theorem execActs_queued (acts : List Act) :
    ∀ (fuel : Nat) (t : TaskId) (w : World) (ts : TaskState) (q : List (EvId × V)),
    acts.all (actOnTaskUserB t) = true →
    w.task? t = some ts → ts.running = true → ts.queue = some q →
    execActs fuel acts w ≠ .fuelOut →
    execActs fuel acts w =
      .ok { w with
        trace := w.trace ++ actsBodies acts,
        tasks := w.tasks.set t { ts with queue := some (q ++ actsPendings acts) } } := by
  induction acts with
  | nil =>
    intro fuel t w ts q _ hta _ hq _
    rw [execActs]
    have h1 : { ts with queue := some (q ++ actsPendings []) } = ts := by
      rw [actsPendings]
      simp [← hq]
    rw [h1]
    have h2 : w.tasks.set t ts = w.tasks := congrArg World.tasks (setTask_same hta)
    rw [h2, actsBodies]
    simp
  | cons a rest ih =>
    intro fuel t w ts q hall hta hrun hq hne
    have hrest : rest.all (actOnTaskUserB t) = true := by
      simp only [List.all_cons, Bool.and_eq_true] at hall
      exact hall.2
    have hhead : actOnTaskUserB t a = true := by
      simp only [List.all_cons, Bool.and_eq_true] at hall
      exact hall.1
    rw [execActs] at hne ⊢
    cases a with
    | subA t2 ev2 h2 => exact absurd hhead (by simp [actOnTaskUserB])
    | unsubA t2 ev2 h2 => exact absurd hhead (by simp [actOnTaskUserB])
    | fireA t2 ev2 a2 =>
      obtain ⟨ht2, n, hn⟩ : t2 = t ∧ ∃ n, ev2 = .user n := by
        cases ev2 <;> simp_all [actOnTaskUserB]
      subst ht2
      subst hn
      rw [execAct] at hne ⊢
      have hfne : fire fuel t2 (.user n) a2 w ≠ .fuelOut := by
        intro hc
        exact hne (by rw [hc]; rfl)
      have hf := fire_user_queued fuel t2 n a2 w ts q hta hrun hq hfne
      rw [hf] at hne ⊢
      simp only [Outcome.andThen_ok] at hne ⊢
      set w1 := (w.log (.body t2 (.user n) a2)).setTask t2
        { ts with queue := some (q ++ [(.user n, a2)]) } with hw1
      have hta1 : w1.task? t2 = some { ts with queue := some (q ++ [(.user n, a2)]) } :=
        task?_setTask_self (show (w.log (.body t2 (.user n) a2)).task? t2 = some ts from hta) _
      have := ih fuel t2 w1 _ (q ++ [(.user n, a2)]) hrest hta1 hrun rfl hne
      rw [this]
      simp only [hw1, World.setTask, World.log]
      simp [List.set_set, actsBodies, actsPendings]
    | callB t2 fires =>
      obtain ⟨ht2, hfires⟩ : t2 = t ∧ fires.all (onTaskUserB t) = true := by
        simp_all [actOnTaskUserB]
      subst ht2
      rw [execAct, withTransaction] at hne ⊢
      simp only [hta, hq] at hne ⊢
      have hflne : execFireList fuel fires w ≠ .fuelOut := by
        intro hc
        exact hne (by rw [hc]; rfl)
      have hfl := execFireList_queued fires fuel t2 w ts q hfires hta hrun hq hflne
      rw [hfl] at hne ⊢
      simp only [Outcome.andThen_ok] at hne ⊢
      set w1 : World := { w with
        trace := w.trace ++ bodiesF fires,
        tasks := w.tasks.set t2 { ts with queue := some (q ++ pendingsF fires) } } with hw1
      have hta1 : w1.task? t2 = some { ts with queue := some (q ++ pendingsF fires) } := by
        rw [hw1]
        show (World.setTask { w with trace := w.trace ++ bodiesF fires } t2 _).task? t2 = _
        exact task?_setTask_self (show World.task? { w with trace := w.trace ++ bodiesF fires } t2 = some ts from hta) _
      have := ih fuel t2 w1 _ (q ++ pendingsF fires) hrest hta1 hrun rfl hne
      rw [this]
      simp only [hw1, World.setTask]
      simp [List.set_set, actsBodies, actsPendings]

/-- Flush phase: running the queued notifications of task `t` whose
subscriber lists (all inert recorders) are those of `ts` appends exactly the
`invoked` entries, in enqueue order. -/
theorem flushQueue_record (pendings : List (EvId × V)) :
    ∀ (fuel : Nat) (t : TaskId) (w : World) (ts : TaskState),
    w.task? t = some ts →
    (∀ p ∈ pendings, allRecordL (ts.getSubs p.1) = true) →
    flushQueue fuel t pendings w ≠ .fuelOut →
    flushQueue fuel t pendings w = .ok { w with trace := w.trace ++ notifsOf t ts pendings } := by
  induction pendings with
  | nil =>
    intro fuel t w ts _ _ _
    rw [flushQueue, notifsOf]
    simp
  | cons p rest ih =>
    intro fuel t w ts hta hrec hne
    obtain ⟨ev, arg⟩ := p
    rw [flushQueue] at hne ⊢
    have hdne : doCall fuel t ev arg w ≠ .fuelOut := by
      intro hc
      exact hne (by rw [hc]; rfl)
    have hd := doCall_record fuel t ev arg w ts hta (hrec (ev, arg) (by simp)) hdne
    rw [hd] at hne ⊢
    simp only [Outcome.andThen_ok] at hne ⊢
    have hta2 : World.task? { w with trace := w.trace ++ invokedEntries t ev arg (ts.getSubs ev) } t = some ts := hta
    have hrec2 : ∀ p ∈ rest, allRecordL (ts.getSubs p.1) = true :=
      fun p hp => hrec p (by simp [hp])
    rw [ih fuel t _ ts hta2 hrec2 hne]
    rw [notifsOf]
    simp

/-- Decomposition of a successful outermost transaction-scoped call: the body
runs with a fresh queue, then the queue is reset and flushed. -/
theorem withTransaction_ok_shape (fuel : Nat) (t : TaskId) (w : World) (ts : TaskState)
    (body : World → Outcome) (w' : World) (hta : w.task? t = some ts)
    (hq : ts.queue = none) (hok : withTransaction fuel t body w = .ok w') :
    ∃ w1, body (w.setTask t { ts with queue := some [] }) = .ok w1 ∧
      ∃ ts1, w1.task? t = some ts1 ∧
        flushQueue fuel t (ts1.queue.getD []) (w1.setTask t { ts1 with queue := none }) = .ok w' := by
  rw [withTransaction] at hok
  simp only [hta, hq] at hok
  cases hb : body (w.setTask t { ts with queue := some [] }) with
  | ok w1 =>
    simp only [hb] at hok
    cases ht1 : w1.task? t with
    | none =>
      simp only [ht1] at hok
      exact Outcome.noConfusion hok
    | some ts1 =>
      simp only [ht1] at hok
      exact ⟨w1, rfl, ts1, ht1, hok⟩
  | err e w1 =>
    simp only [hb] at hok
    cases ht1 : w1.task? t with
    | none =>
      simp only [ht1] at hok
      exact Outcome.noConfusion hok
    | some ts1 =>
      simp only [ht1] at hok
      exact Outcome.noConfusion hok
  | fuelOut =>
    simp only [hb] at hok
    exact Outcome.noConfusion hok

/-! ## C4 — deferral and ordering of an outermost transaction-scoped call -/

/-- C4: when a transaction-scoped method is invoked on task `t` outside any
active transaction and its body — possibly through a nested
transaction-scoped method that also fires — fires any number of user events
of `t` (whose subscribers are inert recorders), every event body runs
synchronously at its call site, every subscriber notification is deferred
until the outermost invocation completes, and the notifications are then
delivered in exactly the order the events were raised: the final trace is the
starting trace, then all bodies in call order, then all notifications in
raise order. -/
theorem c4_transaction_order (fuel : Nat) (t : TaskId) (acts : List Act) (w : World)
    (ts : TaskState) (w' : World)
    (hacts : acts.all (actOnTaskUserB t) = true)
    (hta : w.task? t = some ts) (hrun : ts.running = true) (hq : ts.queue = none)
    (hrec : ∀ p ∈ actsPendings acts, allRecordL (ts.getSubs p.1) = true)
    (hexec : execTrans fuel t acts w = .ok w') :
    w'.trace = w.trace ++ actsBodies acts ++ notifsOf t ts (actsPendings acts) := by
  rw [execTrans] at hexec
  obtain ⟨w1, hbody, ts1, hts1, hflush⟩ :=
    withTransaction_ok_shape fuel t w ts _ w' hta hq hexec
  have hta0 : (w.setTask t { ts with queue := some [] }).task? t =
      some { ts with queue := some [] } := task?_setTask_self hta _
  have hbne : execActs fuel acts (w.setTask t { ts with queue := some [] }) ≠ .fuelOut := by
    rw [hbody]
    simp
  have hb := execActs_queued acts fuel t _ _ [] hacts hta0 hrun rfl hbne
  set wB : World := { w.setTask t { ts with queue := some [] } with
    trace := (w.setTask t { ts with queue := some [] }).trace ++ actsBodies acts,
    tasks := (w.setTask t { ts with queue := some [] }).tasks.set t
      { ts with queue := some ([] ++ actsPendings acts) } } with hwB
  have hw1 : w1 = wB := (Outcome.ok.inj (hb.symm.trans hbody)).symm
  subst hw1
  have htsW : wB.task? t = some { ts with queue := some ([] ++ actsPendings acts) } := by
    show ((w.tasks.set t _).set t _)[t]? = _
    rw [List.set_set]
    exact List.getElem?_set_self (by simpa using lt_of_task? hta)
  have hts1w : ts1 = { ts with queue := some ([] ++ actsPendings acts) } :=
    (Option.some.inj (htsW.symm.trans hts1)).symm
  subst hts1w
  have hgetD : (({ ts with queue := some ([] ++ actsPendings acts) } : TaskState)).queue.getD [] =
      [] ++ actsPendings acts := rfl
  have hcollapse : ({ { ts with queue := some ([] ++ actsPendings acts) } with
      queue := none } : TaskState) = { ts with queue := none } := rfl
  rw [hgetD, hcollapse] at hflush
  have htaF : (wB.setTask t { ts with queue := none }).task? t =
      some { ts with queue := none } := task?_setTask_self htsW _
  have hfne : flushQueue fuel t ([] ++ actsPendings acts)
      (wB.setTask t { ts with queue := none }) ≠ .fuelOut := by
    rw [hflush]
    simp
  have hf := flushQueue_record ([] ++ actsPendings acts) fuel t _ _ htaF
    (fun p hp => by
      rw [getSubs_set_queue]
      exact hrec p (by simpa using hp)) hfne
  have hw' : w' = { wB.setTask t { ts with queue := none } with
      trace := (wB.setTask t { ts with queue := none }).trace ++
        notifsOf t { ts with queue := none } ([] ++ actsPendings acts) } :=
    (Outcome.ok.inj (hf.symm.trans hflush)).symm
  rw [hw', hwB]
  simp [World.setTask, notifsOf_set_queue]

/-- Witness for `c4_transaction_order` at a concrete input: a body that
fires user event 0 and then calls a nested transaction-scoped method firing
user event 1. -/
theorem c4_witness :
    c4wFinal.trace = c4wWorld.trace ++ actsBodies c4wActs ++
      notifsOf 0 { TaskState.init with
        userSubs := [(0, [.record 1, .record 2]), (1, [.record 3])] } (actsPendings c4wActs) :=
  c4_transaction_order 12 0 c4wActs c4wWorld _ c4wFinal (by decide) rfl rfl rfl
    (by decide) (by decide)

/-! ## C9 — transaction batching is scoped per instance -/

/-- C9: when an event is fired on task `b` from inside a transaction-scoped
method of a different task `a`, `b`'s subscribers are notified immediately —
before `a`'s method returns — because only events fired on the instance
holding the open transaction are deferred to its flush.  In the trace, `b`'s
`invoked` entries appear directly after `b`'s body entry and before the body
entry of `a`'s own later fire, whose notification flushes only at the end. -/
theorem c9_cross_instance_immediate (fuel : Nat) (a b : TaskId) (na nb : Nat)
    (argA argB : V) (w : World) (tsa tsb : TaskState) (w' : World)
    (hab : a ≠ b)
    (htaA : w.task? a = some tsa) (hrunA : tsa.running = true) (hqA : tsa.queue = none)
    (htaB : w.task? b = some tsb) (hrunB : tsb.running = true) (hqB : tsb.queue = none)
    (hrecB : allRecordL (tsb.getSubs (.user nb)) = true)
    (hrecA : allRecordL (tsa.getSubs (.user na)) = true)
    (hexec : execTrans fuel a [.fireA b (.user nb) argB, .fireA a (.user na) argA] w = .ok w') :
    w'.trace = w.trace ++ .body b (.user nb) argB ::
      (invokedEntries b (.user nb) argB (tsb.getSubs (.user nb)) ++
        .body a (.user na) argA ::
          invokedEntries a (.user na) argA (tsa.getSubs (.user na))) := by
  rw [execTrans] at hexec
  obtain ⟨w1, hbody, ts1, hts1, hflush⟩ :=
    withTransaction_ok_shape fuel a w tsa _ w' htaA hqA hexec
  set w0 := w.setTask a { tsa with queue := some [] } with hw0
  have htaB0 : w0.task? b = some tsb := by
    rw [hw0, task?_setTask_ne w hab, htaB]
  rw [execActs] at hbody
  have hfBne : fire fuel b (.user nb) argB w0 ≠ .fuelOut := by
    intro hc
    rw [execAct, hc] at hbody
    exact Outcome.noConfusion hbody
  have hfB := fire_user_immediate fuel b nb argB w0 tsb htaB0 hrunB hqB hrecB hfBne
  rw [execAct, hfB] at hbody
  simp only [Outcome.andThen_ok] at hbody
  set wB : World := { w0 with
    trace := w0.trace ++ .body b (.user nb) argB ::
      invokedEntries b (.user nb) argB (tsb.getSubs (.user nb)) } with hwB
  rw [execActs] at hbody
  have htaA1 : wB.task? a = some { tsa with queue := some [] } := by
    rw [hwB]
    show w0.task? a = _
    rw [hw0]
    exact task?_setTask_self htaA _
  have hfAne : fire fuel a (.user na) argA wB ≠ .fuelOut := by
    intro hc
    rw [execAct, hc] at hbody
    exact Outcome.noConfusion hbody
  have hfA := fire_user_queued fuel a na argA wB _ [] htaA1 hrunA rfl hfAne
  rw [execAct, hfA] at hbody
  simp only [Outcome.andThen_ok] at hbody
  rw [execActs] at hbody
  injection hbody with hw1
  subst hw1
  have htsa1 : ((wB.log (.body a (.user na) argA)).setTask a
      { tsa with queue := some ([] ++ [(.user na, argA)]) }).task? a =
      some { tsa with queue := some [(.user na, argA)] } :=
    task?_setTask_self (show (wB.log (.body a (.user na) argA)).task? a = some { tsa with queue := some [] } from htaA1) _
  rw [htsa1] at hts1
  injection hts1 with hts1
  subst hts1
  have hgetD : (({ tsa with queue := some [(.user na, argA)] } : TaskState)).queue.getD [] =
      [((.user na : EvId), argA)] := rfl
  have hcollapse : ({ { tsa with queue := some [(.user na, argA)] } with
      queue := none } : TaskState) = { tsa with queue := none } := rfl
  rw [hgetD, hcollapse] at hflush
  have hta2 : (((wB.log (.body a (.user na) argA)).setTask a
      { tsa with queue := some ([] ++ [(.user na, argA)]) }).setTask a
      { tsa with queue := none }).task? a = some { tsa with queue := none } := by
    rw [setTask_setTask]
    exact task?_setTask_self (show (wB.log (.body a (.user na) argA)).task? a = some { tsa with queue := some [] } from htaA1) _
  have hfne : flushQueue fuel a [((.user na : EvId), argA)]
      (((wB.log (.body a (.user na) argA)).setTask a
        { tsa with queue := some ([] ++ [(.user na, argA)]) }).setTask a
        { tsa with queue := none }) ≠ .fuelOut := by
    rw [hflush]
    simp
  have hrec2 : ∀ p ∈ [((.user na : EvId), argA)],
      allRecordL (TaskState.getSubs { tsa with queue := none } p.1) = true := by
    intro p hp
    simp only [List.mem_singleton] at hp
    subst hp
    rw [getSubs_set_queue]
    exact hrecA
  have hf := flushQueue_record _ fuel a _ _ hta2 (by simpa using hrec2) hfne
  rw [hf] at hflush
  injection hflush with hw'
  rw [← hw']
  rw [hwB, hw0]
  simp [World.setTask, World.log, notifsOf, getSubs_set_queue, invokedEntries]

/-! ## C8 — the running flag is monotone -/

theorem mono_refl (w : World) : Mono w w := by
  refine ⟨le_refl _, fun i a b ha hb hf => ?_⟩
  rw [ha] at hb
  cases hb
  exact hf

theorem lt_list_of_getElem? {l : List TaskState} {i : Nat} {a : TaskState}
    (h : l[i]? = some a) : i < l.length := by
  by_contra h'
  rw [List.getElem?_eq_none (Nat.le_of_not_lt h')] at h
  exact Option.noConfusion h

theorem mono_trans {w1 w2 w3 : World} (h12 : Mono w1 w2) (h23 : Mono w2 w3) :
    Mono w1 w3 := by
  refine ⟨le_trans h12.1 h23.1, fun i a c ha hc hf => ?_⟩
  have hi : i < w2.tasks.length := lt_of_lt_of_le (lt_list_of_getElem? ha) h12.1
  have hb : w2.tasks[i]? = some w2.tasks[i] := List.getElem?_eq_getElem hi
  exact h23.2 i _ c hb hc (h12.2 i a _ ha hb hf)

theorem mono_of_tasks_eq {w w' : World} (h : w.tasks = w'.tasks) : Mono w w' := by
  refine ⟨le_of_eq (by rw [h]), fun i a b ha hb hf => ?_⟩
  rw [h, hb] at ha
  cases ha
  exact hf

theorem mono_log (w : World) (e : TraceEnt) : Mono w (w.log e) := mono_of_tasks_eq rfl

theorem mono_setTask {w : World} {t : TaskId} {ts0 : TaskState} (ts : TaskState)
    (hta : w.task? t = some ts0) (hpres : ts0.running = false → ts.running = false) :
    Mono w (w.setTask t ts) := by
  have hta' : w.tasks[t]? = some ts0 := hta
  refine ⟨le_of_eq (by simp [World.setTask]), fun i a b ha hb hf => ?_⟩
  by_cases hit : t = i
  · subst hit
    have haeq : a = ts0 := by
      rw [ha] at hta'
      exact Option.some.inj hta' 
    have hb' : (w.setTask t ts).tasks[t]? = some ts := by
      simp [World.setTask, List.getElem?_set_self (lt_list_of_getElem? ha)]
    rw [hb'] at hb
    have hbeq : b = ts := (Option.some.inj hb).symm
    subst hbeq
    subst haeq
    exact hpres hf
  · have hb' : (w.setTask t ts).tasks[i]? = w.tasks[i]? := by
      simp [World.setTask, List.getElem?_set_ne hit]
    rw [hb', ha] at hb
    have hbeq : b = a := (Option.some.inj hb).symm
    subst hbeq
    exact hf

theorem mono_addTask (w : World) : Mono w w.addTask := by
  refine ⟨by simp [World.addTask], fun i a b ha hb hf => ?_⟩
  have hb' : w.addTask.tasks[i]? = w.tasks[i]? := by
    show (w.tasks ++ [TaskState.init])[i]? = _
    rw [List.getElem?_append_left (lt_list_of_getElem? ha)]
  rw [hb', ha] at hb
  cases hb
  exact hf

theorem monoOut_comp {w w1 : World} {o : Outcome} (h : Mono w w1) (ho : monoOut w1 o) :
    monoOut w o := by
  cases o with
  | ok w2 => exact mono_trans h ho
  | err e w2 => exact mono_trans h ho
  | fuelOut => trivial

theorem monoOut_andThen {w : World} {o : Outcome} {k : World → Outcome}
    (ho : monoOut w o) (hk : ∀ w1, monoOut w1 (k w1)) : monoOut w (o.andThen k) := by
  cases o with
  | ok w1 => exact monoOut_comp ho (hk w1)
  | err e w1 => exact ho
  | fuelOut => trivial

theorem running_setSubs (ts : TaskState) (ev : EvId) (l : List Handler) :
    (ts.setSubs ev l).running = ts.running := by
  cases ev <;> rfl

theorem mono_subscribeW (w : World) (t : TaskId) (ev : EvId) (h : Handler) :
    monoOut w (subscribeW w t ev h) := by
  cases hta : w.task? t with
  | none =>
    simp only [subscribeW, hta]
    exact mono_refl w
  | some ts =>
    simp only [subscribeW, hta]
    exact mono_setTask _ hta (fun hf => by rw [running_setSubs]; exact hf)

theorem mono_unsubscribeW (w : World) (t : TaskId) (ev : EvId) (h : Handler) :
    monoOut w (unsubscribeW w t ev h) := by
  cases hta : w.task? t with
  | none =>
    simp only [unsubscribeW, hta]
    exact mono_refl w
  | some ts =>
    simp only [unsubscribeW, hta]
    by_cases hmem : h ∈ ts.getSubs ev
    · rw [if_pos hmem]
      exact mono_setTask _ hta (fun hf => by rw [running_setSubs]; exact hf)
    · rw [if_neg hmem]
      exact mono_refl w

/-- No step of the interpreter ever turns a task's cleared `running` flag back
on: every function of the mutual interpreter block is `Mono`. -/
theorem monoAll : ∀ fuel : Nat,
    (∀ (t : TaskId) (ev : EvId) (arg : V) (w : World), monoOut w (fire fuel t ev arg w)) ∧
    (∀ (t : TaskId) (ev : EvId) (arg : V) (w : World), monoOut w (runBody fuel t ev arg w)) ∧
    (∀ (t : TaskId) (w : World), monoOut w (stop fuel t w)) ∧
    (∀ (l : List TaskId) (w : World), monoOut w (stopAdoptedList fuel l w)) ∧
    (∀ (t : TaskId) (w : World), monoOut w (stopTaskF fuel t w)) ∧
    (∀ (t : TaskId) (ev : EvId) (arg : V) (w : World),
      monoOut w (runWithinTransaction fuel t ev arg w)) ∧
    (∀ (t : TaskId) (ev : EvId) (arg : V) (w : World), monoOut w (doCall fuel t ev arg w)) ∧
    (∀ (t : TaskId) (ev : EvId) (arg : V) (hs : List Handler) (w : World),
      monoOut w (runPassList fuel t ev arg hs w)) ∧
    (∀ (h : Handler) (arg : V) (w : World), monoOut w (invokeHandler fuel h arg w)) := by
  intro fuel
  induction fuel with
  | zero =>
    exact ⟨fun _ _ _ _ => trivial, fun _ _ _ _ => trivial, fun _ _ => trivial,
           fun _ _ => trivial, fun _ _ => trivial, fun _ _ _ _ => trivial,
           fun _ _ _ _ => trivial, fun _ _ _ _ _ => trivial, fun _ _ _ => trivial⟩
  | succ f ih =>
    obtain ⟨ihFire, ihBody, ihStop, ihList, ihTask, ihRWT, ihDoCall, ihPass, ihInv⟩ := ih
    refine ⟨?_, ?_, ?_, ?_, ?_, ?_, ?_, ?_, ?_⟩
    · intro t ev arg w
      cases hta : w.task? t with
      | none =>
        rw [fire_succ]
        simp only [hta]
        exact mono_refl w
      | some ts =>
        rw [fire_succ]
        simp only [hta]
        by_cases hr : ts.running
        · rw [if_pos hr]
          exact monoOut_andThen (ihBody t ev arg w) (fun w1 => ihRWT t ev arg w1)
        · rw [if_neg hr]
          exact mono_refl w
    · intro t ev arg w
      cases ev with
      | user n => exact mono_log w _
      | onFailure =>
        cases hta : w.task? t with
        | none =>
          rw [runBody]
          simp only [hta]
          exact mono_refl w
        | some ts =>
          rw [runBody]
          simp only [hta]
          by_cases hs : ts.failSubs = []
          · rw [if_pos hs]
            exact mono_refl w
          · rw [if_neg hs]
            exact monoOut_comp (mono_setTask { ts with exception := some arg } hta
              (fun hf => hf)) (ihStop t _)
      | onSuccess =>
        cases hta : w.task? t with
        | none =>
          rw [runBody]
          simp only [hta]
          exact mono_refl w
        | some ts =>
          rw [runBody]
          simp only [hta]
          exact monoOut_comp (mono_setTask { ts with result := some arg, succeeded := true }
            hta (fun hf => hf)) (ihStop t _)
    · intro t w
      cases hta : w.task? t with
      | none =>
        rw [stop_succ]
        simp only [hta]
        exact mono_refl w
      | some ts =>
        rw [stop_succ]
        simp only [hta]
        by_cases hr : ts.running
        · rw [if_pos hr]
          exact monoOut_comp (mono_setTask _ hta (fun _ => rfl)) (ihList ts.adopted _)
        · rw [if_neg hr]
          exact mono_refl w
    · intro l w
      cases l with
      | nil => exact mono_refl w
      | cons c rest =>
        have hstep : stopAdoptedList (f + 1) (c :: rest) w =
            (stopTaskF f c w).andThen (stopAdoptedList f rest) := rfl
        rw [hstep]
        exact monoOut_andThen (ihTask c w) (fun w1 => ihList rest w1)
    · intro t w
      have hstep : stopTaskF (f + 1) t w =
          match w.task? t with
          | none => .err .missingTask w
          | some ts => if ts.running then stop f t w else .ok w := rfl
      cases hta : w.task? t with
      | none =>
        rw [hstep]
        simp only [hta]
        exact mono_refl w
      | some ts =>
        rw [hstep]
        simp only [hta]
        by_cases hr : ts.running
        · rw [if_pos hr]
          exact ihStop t w
        · rw [if_neg hr]
          exact mono_refl w
    · intro t ev arg w
      cases hta : w.task? t with
      | none =>
        rw [runWithinTransaction_succ]
        simp only [hta]
        exact mono_refl w
      | some ts =>
        rw [runWithinTransaction_succ]
        simp only [hta]
        cases hq : ts.queue with
        | some q =>
          simp only [hq]
          exact mono_setTask _ hta (fun hf => hf)
        | none =>
          simp only [hq]
          exact ihDoCall t ev arg w
    · intro t ev arg w
      cases hta : w.task? t with
      | none =>
        rw [doCall_succ]
        simp only [hta]
        exact mono_refl w
      | some ts =>
        rw [doCall_succ]
        simp only [hta]
        exact ihPass t ev arg _ w
    · intro t ev arg hs w
      cases hs with
      | nil => exact mono_refl w
      | cons h rest =>
        have hstep : runPassList (f + 1) t ev arg (h :: rest) w =
            match invokeHandler f h arg (w.log (.invoked t ev h arg)) with
            | .ok w2 => runPassList f t ev arg rest w2
            | .err e w2 => .err (wrapExc e) w2
            | .fuelOut => .fuelOut := rfl
        rw [hstep]
        cases hinv : invokeHandler f h arg (w.log (.invoked t ev h arg)) with
        | ok w2 =>
          have h1 : Mono w w2 := mono_trans (mono_log w _) (by
            have hm := ihInv h arg (w.log (.invoked t ev h arg))
            rw [hinv] at hm
            exact hm)
          exact monoOut_comp h1 (ihPass t ev arg rest w2)
        | err e w2 =>
          exact mono_trans (mono_log w _) (by
            have hm := ihInv h arg (w.log (.invoked t ev h arg))
            rw [hinv] at hm
            exact hm)
        | fuelOut => trivial
    · intro h arg w
      cases h with
      | record tag => exact mono_refl w
      | raiseErr e => exact mono_refl w
      | subscribeH t2 ev2 h2 => exact mono_subscribeW w t2 ev2 h2
      | unsubscribeH t2 ev2 h2 => exact mono_unsubscribeW w t2 ev2 h2
      | onFailureOf t2 => exact ihFire t2 .onFailure arg w

theorem mono_flushQueue (pendings : List (EvId × V)) :
    ∀ (fuel : Nat) (t : TaskId) (w : World), monoOut w (flushQueue fuel t pendings w) := by
  induction pendings with
  | nil =>
    intro fuel t w
    exact mono_refl w
  | cons p rest ih =>
    intro fuel t w
    rw [flushQueue]
    exact monoOut_andThen ((monoAll fuel).2.2.2.2.2.2.1 t p.1 p.2 w) (fun w1 => ih fuel t w1)

theorem mono_withTransaction (fuel : Nat) (t : TaskId) (body : World → Outcome) (w : World)
    (hb : ∀ w1, monoOut w1 (body w1)) : monoOut w (withTransaction fuel t body w) := by
  cases hta : w.task? t with
  | none =>
    rw [withTransaction]
    simp only [hta]
    exact mono_refl w
  | some ts =>
    rw [withTransaction]
    simp only [hta]
    cases hq : ts.queue with
    | some q =>
      simp only [hq]
      exact hb w
    | none =>
      simp only [hq]
      have h0 : Mono w (w.setTask t { ts with queue := some [] }) :=
        mono_setTask _ hta (fun hf => hf)
      cases hbo : body (w.setTask t { ts with queue := some [] }) with
      | ok w1 =>
        simp only [hbo]
        have h1 : Mono w w1 := mono_trans h0 (by
          have hm := hb (w.setTask t { ts with queue := some [] })
          rw [hbo] at hm
          exact hm)
        cases ht1 : w1.task? t with
        | none =>
          simp only [ht1]
          exact h1
        | some ts1 =>
          simp only [ht1]
          have h2 : Mono w (w1.setTask t { ts1 with queue := none }) :=
            mono_trans h1 (mono_setTask _ ht1 (fun hf => hf))
          exact monoOut_comp h2 (mono_flushQueue _ fuel t _)
      | err e w1 =>
        simp only [hbo]
        have h1 : Mono w w1 := mono_trans h0 (by
          have hm := hb (w.setTask t { ts with queue := some [] })
          rw [hbo] at hm
          exact hm)
        cases ht1 : w1.task? t with
        | none =>
          simp only [ht1]
          exact h1
        | some ts1 =>
          simp only [ht1]
          exact mono_trans h1 (mono_setTask _ ht1 (fun hf => hf))
      | fuelOut =>
        simp only [hbo]
        trivial

theorem mono_execFireList (fires : List (TaskId × EvId × V)) :
    ∀ (fuel : Nat) (w : World), monoOut w (execFireList fuel fires w) := by
  induction fires with
  | nil =>
    intro fuel w
    exact mono_refl w
  | cons s rest ih =>
    intro fuel w
    rw [execFireList]
    exact monoOut_andThen ((monoAll fuel).1 s.1 s.2.1 s.2.2 w) (fun w1 => ih fuel w1)

theorem mono_execAct (fuel : Nat) (a : Act) (w : World) : monoOut w (execAct fuel a w) := by
  cases a with
  | fireA t ev arg => exact (monoAll fuel).1 t ev arg w
  | subA t ev h => exact mono_subscribeW w t ev h
  | unsubA t ev h => exact mono_unsubscribeW w t ev h
  | callB t fires =>
    exact mono_withTransaction fuel t _ w (fun w1 => mono_execFireList fires fuel w1)

theorem mono_execActs (acts : List Act) :
    ∀ (fuel : Nat) (w : World), monoOut w (execActs fuel acts w) := by
  induction acts with
  | nil =>
    intro fuel w
    exact mono_refl w
  | cons a rest ih =>
    intro fuel w
    rw [execActs]
    exact monoOut_andThen (mono_execAct fuel a w) (fun w1 => ih fuel w1)

theorem mono_adoptW (w : World) (p c : TaskId) (fh : Option Handler) :
    monoOut w (adoptW w p c fh) := by
  cases hta : w.task? p with
  | none =>
    rw [adoptW]
    simp only [hta]
    exact mono_refl w
  | some tsp =>
    rw [adoptW]
    simp only [hta]
    exact monoOut_comp (mono_setTask { tsp with adopted := tsp.adopted ++ [c] } hta
      (fun hf => hf)) (mono_subscribeW _ c .onFailure (fh.getD (.onFailureOf p)))

theorem mono_execOp (fuel : Nat) (op : Op) (w : World) : monoOut w (execOp fuel op w) := by
  cases op with
  | subscribeOp t ev h => exact mono_subscribeW w t ev h
  | unsubscribeOp t ev h => exact mono_unsubscribeW w t ev h
  | fireOp t ev arg => exact (monoAll fuel).1 t ev arg w
  | stopOp t => exact (monoAll fuel).2.2.1 t w
  | stopTaskOp t => exact (monoAll fuel).2.2.2.2.1 t w
  | adoptOp p c fh => exact mono_adoptW w p c fh
  | createFailureOp arg => exact monoOut_comp (mono_addTask w) ((monoAll fuel).1 _ _ _ _)
  | createSuccessOp arg => exact monoOut_comp (mono_addTask w) ((monoAll fuel).1 _ _ _ _)
  | transOp t acts =>
    exact mono_withTransaction fuel t _ w (fun w1 => mono_execActs acts fuel w1)

/-- C8: the `running` flag transitions from `true` to `false` exactly once:
`stop()` on a running task returns with the flag cleared; `stop()` on an
already-stopped task raises the `InvalidStateError`-style exception and
returns the world exactly unchanged (the guard raises before any mutation);
and no operation of the library surface ever sets a cleared `running` flag
back to `true` (`monoOut` over every `Op`). -/
theorem c8_running_transitions :
    (∀ (fuel : Nat) (t : TaskId) (w : World) (ts : TaskState) (w' : World),
       w.task? t = some ts → ts.running = true → stop fuel t w = .ok w' →
       w'.runningOf t = some false) ∧
    (∀ (fuel : Nat) (t : TaskId) (w : World) (ts : TaskState),
       w.task? t = some ts → ts.running = false →
       stop (fuel + 1) t w = .err .invalidState w) ∧
    (∀ (fuel : Nat) (op : Op) (w : World), monoOut w (execOp fuel op w)) := by
  refine ⟨?_, ?_, fun fuel op w => mono_execOp fuel op w⟩
  · intro fuel t w ts w' hta hrun hok
    cases fuel with
    | zero => exact absurd hok (by simp [stop])
    | succ f =>
      rw [stop_succ] at hok
      simp only [hta, hrun, if_true] at hok
      have hmono : monoOut (w.setTask t { ts with running := false })
          (stopAdoptedList f ts.adopted (w.setTask t { ts with running := false })) :=
        (monoAll f).2.2.2.1 _ _
      rw [hok] at hmono
      have hta1 : (w.setTask t { ts with running := false }).task? t =
          some { ts with running := false } := task?_setTask_self hta _
      have hlen' : t < w'.tasks.length := lt_of_lt_of_le (lt_of_task? hta1) hmono.1
      have hb : w'.tasks[t]? = some w'.tasks[t] := List.getElem?_eq_getElem hlen'
      have hrf : (w'.tasks[t]).running = false := hmono.2 t _ _ hta1 hb rfl
      rw [World.runningOf, World.task?, hb]
      simp [hrf]
  · intro fuel t w ts hta hrun
    rw [stop_succ]
    simp only [hta]
    rw [if_neg (by simp [hrun])]

/-- Witness for `c8_running_transitions` at concrete inputs: stopping the
fresh task of `c8World` yields `c8Stopped` with the flag cleared, and a
second `stop()` on `c8Stopped` raises with the world unchanged. -/
theorem c8_witness :
    c8Stopped.runningOf 0 = some false ∧
    stop 3 0 c8Stopped = .err .invalidState c8Stopped :=
  ⟨c8_running_transitions.1 5 0 c8World TaskState.init c8Stopped rfl rfl (by decide),
   c8_running_transitions.2.1 2 0 c8Stopped _ rfl rfl⟩

/-- Witness for `c9_cross_instance_immediate` at a concrete input. -/
theorem c9_witness :
    c9wFinal.trace = c9wWorld.trace ++ .body 1 (.user 0) (.nat 1) ::
      (invokedEntries 1 (.user 0) (.nat 1) [.record 20] ++
        .body 0 (.user 1) (.nat 2) ::
          invokedEntries 0 (.user 1) (.nat 2) [.record 10]) :=
  c9_cross_instance_immediate 12 0 1 1 0 (.nat 2) (.nat 1) c9wWorld _ _ c9wFinal
    (by decide) rfl rfl rfl rfl rfl rfl (by decide) (by decide) (by decide)

end Events
